import Mathlib

/-!
Verification of `igpsport_downloader.py` (class `IGPSportDownloader`),
a sequential client that enumerates activities page by page, resolves a
download URL per activity, and streams FIT files to disk.

The embedding is shallow: pure string manipulation is translated to Lean
functions on `String`/`List Char`; the network is an explicit oracle
(a script of page replies for the enumerator, reply/outcome functions for
the URL resolver and the file fetcher); the filesystem is an explicit
association list from paths to byte contents threaded through the batch
loop.
-/

namespace IGPSport

/-! ## Characters and filename sanitization (line 248 of the source)

The source keeps a character `c` of the candidate filename iff
`c.isalnum() or c in (' ', '-', '_', '.')` and then calls `.rstrip()`.
Python's `str.isalnum` is Unicode-aware.  `pyIsAlnum` models it on the
code points this development exercises: ASCII alphanumerics, the Latin-1
letters U+00C0..U+00FF (all alphabetic except the two operators U+00D7 ×
and U+00F7 ÷), and the CJK Unified Ideographs U+4E00..U+9FFF (all of
category Lo, hence alnum in Python — the app's default titles are
Chinese).  Code points outside these ranges that Python also classifies
as alphanumeric are not modelled; no claim depends on them. -/
def pyIsAlnum (c : Char) : Bool :=
  c.isAlpha || c.isDigit ||
  (decide (0xC0 ≤ c.toNat) && decide (c.toNat ≤ 0xFF) &&
    c.toNat != 0xD7 && c.toNat != 0xF7) ||
  (decide (0x4E00 ≤ c.toNat) && decide (c.toNat ≤ 0x9FFF))

/-- The characters `''.join(c for c in filename if c.isalnum() or c in
(' ', '-', '_', '.'))` keeps. -/
def keepChar (c : Char) : Bool :=
  pyIsAlnum c || c == ' ' || c == '-' || c == '_' || c == '.'

/-- Python `str.isspace` restricted to the ASCII whitespace characters;
after the `keepChar` filter the only whitespace character that can still
occur is a plain space, so this restriction is invisible to `rstrip` as
used by the source. -/
def pyIsSpace (c : Char) : Bool :=
  c == ' ' || c == '\t' || c == '\n' || c == '\r' || c == '\x0b' || c == '\x0c'

/-- Python `str.rstrip()`: remove trailing whitespace. -/
def rstrip (s : String) : String :=
  String.mk ((s.data.reverse.dropWhile pyIsSpace).reverse)

/-- Line 248: `''.join(c for c in filename if c.isalnum() or c in
(' ', '-', '_', '.')).rstrip()`. -/
def sanitizeFilename (s : String) : String :=
  rstrip (String.mk (s.data.filter keepChar))

/-- The character set the spec's sanitization sentence names:
{A-Z, a-z, 0-9, space, `-`, `_`, `.`} (ASCII only).  Stated from the
spec's words, for comparison with the source's `keepChar`. -/
def specAsciiAllowed (c : Char) : Bool :=
  c.isAlpha || c.isDigit || c == ' ' || c == '-' || c == '_' || c == '.'

theorem data_mk (l : List Char) : (String.mk l).data = l := rfl

theorem head_dropWhile_false {α : Type} (p : α → Bool) :
    ∀ (l : List α) (c : α), (l.dropWhile p).head? = some c → p c = false := by
  intro l
  induction l with
  | nil => intro c h; simp [List.dropWhile] at h
  | cons a t ih =>
    intro c h
    by_cases hp : p a = true
    · rw [List.dropWhile_cons_of_pos hp] at h
      exact ih c h
    · rw [List.dropWhile_cons_of_neg hp] at h
      simp at h
      rw [← h]
      simpa using hp

theorem sanitize_all_keep (s : String) :
    (sanitizeFilename s).data.all keepChar = true := by
  simp only [sanitizeFilename, rstrip, data_mk]
  rw [List.all_eq_true]
  intro c hc
  have h1 : c ∈ (s.data.filter keepChar).reverse.dropWhile pyIsSpace := by
    simpa using hc
  have h2 : c ∈ (s.data.filter keepChar).reverse :=
    (List.dropWhile_sublist _).subset h1
  have h3 : c ∈ s.data.filter keepChar := by simpa using h2
  exact (List.mem_filter.mp h3).2

theorem sanitize_no_trailing (s : String) :
    (sanitizeFilename s).data.getLast?.all (fun c => !pyIsSpace c) = true := by
  simp only [sanitizeFilename, rstrip, data_mk]
  rw [List.getLast?_reverse]
  cases hh : ((s.data.filter keepChar).reverse.dropWhile pyIsSpace).head? with
  | none => rfl
  | some c =>
    have := head_dropWhile_false pyIsSpace _ c hh
    simp [Option.all, this]

/-- C1 (amended): every character of a sanitized filename is kept by the
source's filter — Unicode-alphanumeric in the sense of Python
`str.isalnum`, or one of space, `-`, `_`, `.` — and the result has no
trailing whitespace. -/
theorem sanitizeFilename_allowed_chars (s : String) :
    (sanitizeFilename s).data.all keepChar = true ∧
    (sanitizeFilename s).data.getLast?.all (fun c => !pyIsSpace c) = true :=
  ⟨sanitize_all_keep s, sanitize_no_trailing s⟩

/-- C1 counterexample: on the input "活动" (the app's default title stem,
both characters Unicode-alphanumeric for Python) sanitization keeps both
characters, so the result is not drawn from the ASCII set
{A-Z, a-z, 0-9, space, `-`, `_`, `.`} the claim names. -/
theorem sanitizeFilename_not_ascii_only :
    sanitizeFilename "活动" = "活动" ∧
    (sanitizeFilename "活动").data.all specAsciiAllowed = false := by
  constructor <;> decide

/-! ## Data model -/

/-- One activity row, as the orchestrator reads it: `activity.get('rideId')`,
`activity.get('title', ...)`, `activity.get('startTime', '')`.  The listing
endpoint guarantees a numeric id; `title` and `startTime` may be absent
(the source supplies defaults through `.get`). -/
structure Activity where
  rideId : Int
  title : Option String
  startTime : Option String
deriving DecidableEq

/-- One parsed page of `queryMyActivity`: the enumerator reads
`data.get('code')` (absent modelled as `none`), `data.get('data', {}).get('rows', [])`
(absent ≡ `[]`, folded into the list), and `data.get('data', {}).get('pageNo', 1)`
/ `.get('totalPage', 1)` (absent modelled as `none`, defaulted with `getD 1`).
The human-readable `message` field is only printed and is not modelled. -/
structure PageResponse where
  code : Option Int
  rows : List Activity
  pageNo : Option Int
  totalPage : Option Int
deriving DecidableEq

/-! ## Enumerator: `get_all_activities` (source lines 79-122)

The network is an oracle script: the reply to the page-`n` request is the
`n`-th entry (`none` = a `requests` exception, i.e. `get_activities`
returned `None`); an exhausted script also models a transport failure on
every later call.  The function returns the accumulated rows together with
the number of page calls issued. -/
def get_all_activities : List (Option PageResponse) → List Activity × Nat
  | [] => ([], 1)
  | none :: _ => ([], 1)
  | some data :: rest =>
    if data.code ≠ some 0 then ([], 1)
    else if data.rows.isEmpty then ([], 1)
    else if data.pageNo.getD 1 ≥ data.totalPage.getD 1 then (data.rows, 1)
    else
      let next := get_all_activities rest
      (data.rows ++ next.1, next.2 + 1)

/-- Rows for the spec's concrete scenario: `n` fresh activities whose ids
start at `base`. -/
def scenarioRows (n : Nat) (base : Nat) : List Activity :=
  (List.range n).map fun i => ⟨(base + i : Nat), none, none⟩

/-- The spec's scenario: a server reporting `totalPage = 3` with 20, 20
and 5 rows on pages 1-3. -/
def scenarioScript : List (Option PageResponse) :=
  [some ⟨some 0, scenarioRows 20 0, some 1, some 3⟩,
   some ⟨some 0, scenarioRows 20 20, some 2, some 3⟩,
   some ⟨some 0, scenarioRows 5 40, some 3, some 3⟩]

/-- C2: the enumerator issues a further page call exactly when the current
page has success code 0, a non-empty row list, and `pageNo < totalPage`
(first conjunct: the call count on a successful head page recurses exactly
under that condition, and otherwise is 1, i.e. it stops); it stops at once
on a failed call (second conjunct); and on the spec's 20/20/5,
`totalPage = 3` scenario it returns exactly 45 rows after exactly 3 page
calls (last two conjuncts). -/
theorem get_all_activities_pagination :
    (∀ (r : PageResponse) (rest : List (Option PageResponse)),
      (get_all_activities (some r :: rest)).2 =
        if r.code = some 0 ∧ r.rows ≠ [] ∧ r.pageNo.getD 1 < r.totalPage.getD 1
        then (get_all_activities rest).2 + 1
        else 1)
    ∧ (∀ rest : List (Option PageResponse),
        (get_all_activities (none :: rest)).2 = 1)
    ∧ (get_all_activities scenarioScript).1.length = 45
    ∧ (get_all_activities scenarioScript).2 = 3 := by
  refine ⟨?_, fun rest => rfl, by decide, by decide⟩
  intro r rest
  by_cases h1 : r.code = some 0
  · by_cases h2 : r.rows = []
    · simp [get_all_activities, h1, h2]
    · by_cases h3 : r.pageNo.getD 1 < r.totalPage.getD 1
      · simp [get_all_activities, h1, h2, h3, List.isEmpty_iff, not_le.mpr h3]
      · simp [get_all_activities, h1, h2, h3, not_lt.mp h3, List.isEmpty_iff]
  · simp [get_all_activities, h1]

/-! ## Download-URL resolver: `get_download_url` (source lines 124-149) -/

/-- The network's reply to the per-id `getDownloadUrl` endpoint:
a transport error (a `requests` exception) or a parsed JSON body with
`code` (`data.get('code')`, absent → `none`) and `data`
(`data.get('data')`, absent → `none`). -/
inductive UrlReply where
  | transportError
  | response (code : Option Int) (data : Option String)
deriving DecidableEq

/-- Lines 134-149: return `data.get('data')` when `data.get('code') == 0`,
`None` on a non-success code or a transport error.  Total — never raises. -/
def get_download_url (reply : UrlReply) : Option String :=
  match reply with
  | .transportError => none
  | .response code data => if code = some 0 then data else none

/-- C5: the resolver returns the payload's URL field when the application
status code is 0, and `none` on a non-success code or a transport error;
being a total Lean function it raises nothing. -/
theorem get_download_url_contract :
    (∀ d, get_download_url (UrlReply.response (some 0) d) = d)
    ∧ (∀ c d, c ≠ some 0 → get_download_url (UrlReply.response c d) = none)
    ∧ get_download_url UrlReply.transportError = none := by
  refine ⟨fun d => rfl, ?_, rfl⟩
  intro c d h
  simp [get_download_url, h]

/-! ## Filesystem and file fetcher: `download_file` (source lines 151-196)

The disk is an association list from paths to byte contents.  The body
fetch for a URL is an oracle: either the full chunk stream arrives, or a
`requests` exception interrupts it after a prefix of the chunks was
written (`failAfter []` also covers an exception raised before the output
file was opened — in both cases the source ends with no file at the
path, via `if os.path.exists(filepath): os.remove(filepath)`). -/
abbrev FS := List (String × List Nat)

def fsExists (fs : FS) (p : String) : Bool :=
  fs.any fun e => e.1 == p

def fsRemove (fs : FS) (p : String) : FS :=
  fs.filter fun e => e.1 != p

def fsWrite (fs : FS) (p : String) (content : List Nat) : FS :=
  (p, content) :: fsRemove fs p

/-- Outcome of the streaming GET for one URL. -/
inductive FetchOutcome where
  | success (chunks : List (List Nat))
  | failAfter (written : List (List Nat))

/-- `self.download_dir = "downloads"` (line 26). -/
def download_dir : String := "downloads"

/-- `os.path.join(self.download_dir, filename)` on a POSIX system. -/
def filepathOf (filename : String) : String :=
  download_dir ++ "/" ++ filename

/-- What one call to `download_file` produces: the boolean the function
returns, the disk afterwards, and whether a network request for the file
body was issued (instrumentation for the idempotent-skip claim). -/
structure DownloadResult where
  ok : Bool
  fs : FS
  networkUsed : Bool

/-- Lines 151-196: skip (returning `True`, no request) when the target
path exists; otherwise stream the body to the path, returning `True` on
success and, on a mid-stream transport failure, delete the partial file
and return `False`. -/
def download_file (fs : FS) (url : String) (filename : String)
    (net : String → FetchOutcome) : DownloadResult :=
  let filepath := filepathOf filename
  if fsExists fs filepath then ⟨true, fs, false⟩
  else
    match net url with
    | .success chunks => ⟨true, fsWrite fs filepath chunks.flatten, true⟩
    | .failAfter written =>
      ⟨false, fsRemove (fsWrite fs filepath written.flatten) filepath, true⟩

theorem fsExists_fsRemove (fs : FS) (p : String) :
    fsExists (fsRemove fs p) p = false := by
  induction fs with
  | nil => rfl
  | cons e t ih =>
    by_cases h : e.1 = p <;> simp_all [fsRemove, fsExists]

/-- C3: when the body fetch for the URL fails in transport (after any
prefix of the stream, included none of it), `download_file` on a target
that was not already on disk returns `false` and leaves no file at the
target path. -/
theorem download_file_failure_no_partial (fs : FS) (url filename : String)
    (net : String → FetchOutcome) (written : List (List Nat))
    (habs : fsExists fs (filepathOf filename) = false)
    (hnet : net url = .failAfter written) :
    (download_file fs url filename net).ok = false ∧
    fsExists (download_file fs url filename net).fs (filepathOf filename) = false := by
  constructor
  · simp [download_file, habs, hnet]
  · simp [download_file, habs, hnet, fsExists_fsRemove]

/-- A body fetch that always fails after one written chunk. -/
def wnetFail : String → FetchOutcome := fun _ => .failAfter [[7]]

/-- C3 witness: the failure case evaluated on an empty disk and the file
name "a.fit". -/
theorem download_file_failure_no_partial_witness :
    (download_file [] "http://h/a.fit" "a.fit" wnetFail).ok = false ∧
    fsExists (download_file [] "http://h/a.fit" "a.fit" wnetFail).fs
      (filepathOf "a.fit") = false :=
  download_file_failure_no_partial [] "http://h/a.fit" "a.fit" wnetFail [[7]]
    (by decide) rfl

/-- C4: when the target path already exists, `download_file` returns
`true`, issues no network request for the body, and leaves the whole disk
(in particular the existing file) unchanged. -/
theorem download_file_idempotent_skip (fs : FS) (url filename : String)
    (net : String → FetchOutcome)
    (hex : fsExists fs (filepathOf filename) = true) :
    download_file fs url filename net = ⟨true, fs, false⟩ := by
  simp [download_file, hex]

/-- A disk already holding `downloads/a.fit`. -/
def wfsExisting : FS := [("downloads/a.fit", [1, 2, 3])]

/-- C4 witness: the skip case evaluated on a disk that holds the target
already; the fetch oracle (which would fail) is never consulted. -/
theorem download_file_idempotent_skip_witness :
    download_file wfsExisting "http://h/a.fit" "a.fit" wnetFail =
      ⟨true, wfsExisting, false⟩ :=
  download_file_idempotent_skip wfsExisting "http://h/a.fit" "a.fit" wnetFail
    (by decide)

/-! ## URL parsing: `urlparse(download_url).path` and `os.path.basename`
(source lines 240-243), modelled after CPython `urllib.parse`. -/

/-- Scheme characters CPython `urlsplit` admits: ASCII letters, digits,
`+`, `-`, `.`. -/
def isSchemeChar (c : Char) : Bool :=
  c.isAlpha || c.isDigit || c == '+' || c == '-' || c == '.'

/-- `urlsplit` drops the fragment: everything from the first `#` on. -/
def dropFragment (l : List Char) : List Char :=
  l.takeWhile fun c => c != '#'

/-- Lower-case an ASCII scheme, as `urlsplit` does. -/
def lowerChars (l : List Char) : List Char := l.map Char.toLower

/-- `urlsplit` scheme handling: when a `:` is present, preceded by a
nonempty run of scheme characters starting with a letter, split off
`scheme:` (scheme lower-cased); otherwise the scheme is empty. -/
def splitScheme (l : List Char) : String × List Char :=
  let pre := l.takeWhile fun c => c != ':'
  if decide (pre.length < l.length) && !pre.isEmpty &&
      (pre.headD ' ').isAlpha && pre.all isSchemeChar
  then (String.mk (lowerChars pre), l.drop (pre.length + 1))
  else ("", l)

/-- `urlsplit` netloc handling: after the scheme, `//netloc` runs up to
the next `/`, `?` or `#`. -/
def stripNetloc (l : List Char) : List Char :=
  match l with
  | '/' :: '/' :: rest => rest.dropWhile fun c => c != '/' && c != '?' && c != '#'
  | _ => l

/-- `urlsplit` drops the query: everything from the first `?` on. -/
def dropQuery (l : List Char) : List Char :=
  l.takeWhile fun c => c != '?'

/-- The schemes for which `urlparse` splits `;params` off the path
(CPython `uses_params`). -/
def uses_params : List String :=
  ["", "ftp", "hdl", "prospero", "http", "imap", "https", "shttp", "rtsp",
   "rtsps", "rtspu", "sip", "sips", "mms", "sftp", "tel"]

/-- CPython `_splitparams`, keeping side: remove everything from the
first `;` of the last `/`-segment (of the whole path when it has no `/`). -/
def dropParams (l : List Char) : List Char :=
  let revSeg := l.reverse.takeWhile fun c => c != '/'
  l.take (l.length - revSeg.length) ++ (revSeg.reverse.takeWhile fun c => c != ';')

/-- `urlparse(url).path`: fragment off, scheme off, netloc off, query
off, and `;params` split off exactly when the scheme is in `uses_params`
and the remaining path holds a `;`. -/
def urlparsePath (url : String) : String :=
  let noFrag := dropFragment url.data
  let sr := splitScheme noFrag
  let path := dropQuery (stripNetloc sr.2)
  if uses_params.contains sr.1 && path.contains ';' then
    String.mk (dropParams path)
  else String.mk path

/-- POSIX `os.path.basename`: everything after the last `/` (the whole
string when it has none). -/
def basename (p : String) : String :=
  String.mk ((p.data.reverse.takeWhile fun c => c != '/').reverse)

/-! ## The orchestrator's filename derivation (source lines 227-248) -/

/-- Lines 240-243: `os.path.basename(urlparse(download_url).path)`,
replaced by `f"{ride_id}.fit"` when empty or without a `.`. -/
def originalFilename (ride_id : Int) (url : String) : String :=
  let ofn := basename (urlparsePath url)
  if ofn.data.isEmpty || !(ofn.data.contains '.') then toString ride_id ++ ".fit"
  else ofn

/-- Line 229: `activity.get('startTime', '').replace('.', '-').replace(' ', '_')`. -/
def normalizeStartTime (st : String) : String :=
  (st.map fun c => if c == '.' then '-' else c).map fun c => if c == ' ' then '_' else c

/-- Line 228: `activity.get('title', f'活动_{ride_id}')`. -/
def activityTitle (a : Activity) : String :=
  a.title.getD ("活动_" ++ toString a.rideId)

/-- The normalized start time of an activity (line 229). -/
def activityStartTime (a : Activity) : String :=
  normalizeStartTime (a.startTime.getD "")

/-- Lines 246-248: `f"{start_time}_{title}_{ride_id}_{original_filename}"`,
sanitized. -/
def derivedFilename (a : Activity) (url : String) : String :=
  sanitizeFilename (activityStartTime a ++ "_" ++ activityTitle a ++ "_" ++
    toString a.rideId ++ "_" ++ originalFilename a.rideId url)

/-- C7: the derived filename embeds `originalFilename`, which is the
remote URL's base name whenever that base name is nonempty and holds a
dot (i.e. a filename is extractable), and the fallback `{id}.fit`
exactly otherwise; two concrete URL evaluations exercise the parsing
chain (a query string is not part of the base name, and a URL ending in
`/` has no extractable filename). -/
theorem originalFilename_basename_or_fallback (rid : Int) (a : Activity) (url : String) :
    (¬ (basename (urlparsePath url) = "" ∨
          (basename (urlparsePath url)).data.contains '.' = false) →
        originalFilename rid url = basename (urlparsePath url))
    ∧ ((basename (urlparsePath url) = "" ∨
          (basename (urlparsePath url)).data.contains '.' = false) →
        originalFilename rid url = toString rid ++ ".fit")
    ∧ derivedFilename a url = sanitizeFilename (activityStartTime a ++ "_" ++
        activityTitle a ++ "_" ++ toString a.rideId ++ "_" ++
        originalFilename a.rideId url)
    ∧ originalFilename 12345 "https://oss.igpsport.com/fit/12345.fit?Expires=1" = "12345.fit"
    ∧ originalFilename 12345 "https://oss.igpsport.com/download/" = "12345.fit" := by
  refine ⟨?_, ?_, rfl, by decide, by decide⟩
  · intro h
    push_neg at h
    obtain ⟨h1, h2⟩ := h
    have hb : (basename (urlparsePath url)).data ≠ [] := by
      intro hnil
      exact h1 (String.ext hnil)
    have hc : '.' ∈ (basename (urlparsePath url)).data := by
      have := h2
      simp only [ne_eq, Bool.not_eq_false] at this
      simpa using this
    simp [originalFilename, List.isEmpty_iff, hb, hc]
  · intro h
    rcases h with h | h
    · have hnil : (basename (urlparsePath url)).data = [] := by rw [h]
      simp [originalFilename, hnil]
    · have hm : '.' ∉ (basename (urlparsePath url)).data := by simpa using h
      simp [originalFilename, hm]

/-! ## Connection context: header merge in `__init__` (source lines 25-45)

A Python dict in insertion order is an association list with distinct
keys; lookup takes the first match.  `self.headers` starts as the
user-supplied dict, and for every `(key, value)` of `default_headers`, in
order, the pair is appended iff `key not in self.headers`. -/
abbrev Headers := List (String × String)

/-- Dict lookup: the value at the first matching key. -/
def hget (h : Headers) (k : String) : Option String :=
  (h.find? fun e => e.1 == k).map fun e => e.2

/-- Lines 29-38: the default request headers. -/
def default_headers : Headers :=
  [("User-Agent", "Mozilla/5.0 (Windows NT 10.0; Win64; x64) AppleWebKit/537.36 (KHTML, like Gecko) Chrome/91.0.4472.124 Safari/537.36"),
   ("Accept", "application/json, text/plain, */*"),
   ("Accept-Language", "zh-CN,zh;q=0.9,en;q=0.8"),
   ("Accept-Encoding", "gzip, deflate, br"),
   ("Connection", "keep-alive"),
   ("Sec-Fetch-Dest", "empty"),
   ("Sec-Fetch-Mode", "cors"),
   ("Sec-Fetch-Site", "same-site")]

/-- Lines 41-43: `for key, value in defs: if key not in headers:
headers[key] = value` (dict insertion appends at the end). -/
def mergeOver (defs user : Headers) : Headers :=
  defs.foldl (fun h kv => if (hget h kv.1).isSome then h else h ++ [kv]) user

/-- `self.headers` after `__init__` ran on the user-supplied mapping. -/
def mergedHeaders (user : Headers) : Headers :=
  mergeOver default_headers user

theorem hget_nil (k : String) : hget [] k = none := rfl

theorem hget_cons (kv : String × String) (h : Headers) (k : String) :
    hget (kv :: h) k = if kv.1 == k then some kv.2 else hget h k := by
  by_cases hk : kv.1 == k
  · simp [hget, List.find?, hk]
  · simp only [Bool.not_eq_true] at hk
    simp [hget, List.find?, hk]

theorem hget_append (h1 h2 : Headers) (k : String) :
    hget (h1 ++ h2) k = (hget h1 k).orElse fun _ => hget h2 k := by
  induction h1 with
  | nil => simp [hget_nil, Option.orElse]
  | cons kv t ih =>
    rw [List.cons_append, hget_cons, hget_cons]
    by_cases hk : kv.1 == k
    · simp [hk, Option.orElse]
    · simp only [Bool.not_eq_true] at hk
      simp [hk, ih]

theorem hget_mergeOver (defs : Headers) : ∀ (user : Headers) (k : String),
    hget (mergeOver defs user) k = (hget user k).orElse fun _ => hget defs k := by
  induction defs with
  | nil =>
    intro user k
    simp only [mergeOver, List.foldl_nil, hget_nil]
    cases hget user k <;> simp [Option.orElse]
  | cons d ds ih =>
    intro user k
    have step : mergeOver (d :: ds) user =
        mergeOver ds (if (hget user d.1).isSome then user else user ++ [d]) := rfl
    rw [step]
    by_cases hd : (hget user d.1).isSome
    · rw [if_pos hd, ih, hget_cons]
      by_cases hk : d.1 == k
      · have hkk : d.1 = k := by simpa using hk
        subst hkk
        obtain ⟨v, hv⟩ := Option.isSome_iff_exists.mp hd
        simp [hv, Option.orElse]
      · simp [hk]
    · rw [if_neg hd, ih, hget_append, hget_cons, hget_nil]
      have hun : hget user d.1 = none := by
        cases hu : hget user d.1
        · rfl
        · rw [hu] at hd; simp at hd
      by_cases hk : d.1 == k
      · have hkk : d.1 = k := by simpa using hk
        subst hkk
        simp [hun, hk, hget_cons, Option.orElse]
      · simp [hk, Option.orElse, hget_cons]
        cases hget user k <;> simp [Option.orElse]

theorem mergeOver_extends (defs : Headers) : ∀ (user : Headers),
    ∃ extra, mergeOver defs user = user ++ extra := by
  induction defs with
  | nil => exact fun user => ⟨[], by simp [mergeOver]⟩
  | cons d ds ih =>
    intro user
    have step : mergeOver (d :: ds) user =
        mergeOver ds (if (hget user d.1).isSome then user else user ++ [d]) := rfl
    rw [step]
    by_cases hd : (hget user d.1).isSome
    · rw [if_pos hd]; exact ih user
    · rw [if_neg hd]
      obtain ⟨e, he⟩ := ih (user ++ [d])
      exact ⟨[d] ++ e, by rw [he, List.append_assoc]⟩

/-- C8: the merged header mapping is the user mapping extended at the end
(so every user-supplied entry survives with its value unchanged), and a
lookup yields the user's value when the user supplied the name and the
default value only otherwise. -/
theorem mergedHeaders_user_wins (user : Headers) :
    (∃ extra, mergedHeaders user = user ++ extra)
    ∧ (∀ k, hget (mergedHeaders user) k =
        (hget user k).orElse fun _ => hget default_headers k) :=
  ⟨mergeOver_extends default_headers user,
   fun k => hget_mergeOver default_headers user k⟩

/-! ## Orchestrator: `download_all_activities` (source lines 198-260) -/

/-- The network behaviour the batch runs against: the `getDownloadUrl`
reply per ride id and the body-fetch outcome per URL. -/
structure Env where
  urlReplyOf : Int → UrlReply
  fetch : String → FetchOutcome

/-- Python `needle in hay` on strings: substring test. -/
def isSubstr : List Char → List Char → Bool
  | needle, [] => needle.isEmpty
  | needle, c :: rest => needle.isPrefixOf (c :: rest) || isSubstr needle rest

/-- Python `str.lower()`; `Char.toLower` is ASCII-only, which agrees with
Python on the ASCII range (no claim depends on non-ASCII case mapping). -/
def pyLower (s : String) : String := s.map Char.toLower

/-- `activity.get('title', '')` as the filter reads it (line 214). -/
def titleForFilter (a : Activity) : String := a.title.getD ""

/-- Line 214: `activity_type_filter.lower() in a.get('title', '').lower()`. -/
def titleMatches (filt : String) (a : Activity) : Bool :=
  isSubstr (pyLower filt).data (pyLower (titleForFilter a)).data

/-- Lines 213-216: `if activity_type_filter:` — `None` and the empty
string are both falsy and skip filtering. -/
def filterByTitle (filt : Option String) (acts : List Activity) : List Activity :=
  match filt with
  | none => acts
  | some f => if f = "" then acts else acts.filter (titleMatches f)

/-- Lines 219-221: `if limit: activities = activities[:limit]` — `None`
and `0` are both falsy and skip truncation.  (Negative limits, Python
slicing from the end, are outside the model; no claim concerns them.) -/
def applyLimit (limit : Option Nat) (acts : List Activity) : List Activity :=
  match limit with
  | none => acts
  | some n => if n = 0 then acts else acts.take n

/-- Counters and disk threaded through the per-activity loop, plus an
instrumentation count of File-Fetcher invocations. -/
structure BatchState where
  success_count : Nat
  failed_count : Nat
  fs : FS
  fetchCalls : Nat

/-- One iteration of lines 226-257: resolve the URL — a falsy result
(`None` or the empty string) counts a failure and skips the fetch via
`continue` — otherwise derive the filename, invoke the File Fetcher and
count its boolean result. -/
def processOne (env : Env) (st : BatchState) (a : Activity) : BatchState :=
  match get_download_url (env.urlReplyOf a.rideId) with
  | none => { st with failed_count := st.failed_count + 1 }
  | some download_url =>
    if download_url = "" then { st with failed_count := st.failed_count + 1 }
    else
      let r := download_file st.fs download_url (derivedFilename a download_url)
        env.fetch
      { success_count := if r.ok then st.success_count + 1 else st.success_count,
        failed_count := if r.ok then st.failed_count else st.failed_count + 1,
        fs := r.fs,
        fetchCalls := st.fetchCalls + 1 }

/-- The per-activity loop of lines 226-257. -/
def processAll (env : Env) (st : BatchState) : List Activity → BatchState
  | [] => st
  | a :: rest => processAll env (processOne env st a) rest

/-- Lines 198-259: on the list the enumerator produced, filter by title,
truncate, then loop from zeroed counters on the given disk. -/
def download_all_activities (env : Env) (fs : FS) (activities : List Activity)
    (limit : Option Nat) (filt : Option String) : BatchState :=
  processAll env ⟨0, 0, fs, 0⟩ (applyLimit limit (filterByTitle filt activities))

/-- C6: when URL resolution for an activity fails, that loop iteration
only increments the failure counter — the success counter, the disk and
the File-Fetcher invocation count are untouched — and the batch continues
with the remaining activities from that state. -/
theorem resolve_failure_skips_fetch (env : Env) (st : BatchState) (a : Activity)
    (rest : List Activity)
    (hfail : get_download_url (env.urlReplyOf a.rideId) = none) :
    processOne env st a = { st with failed_count := st.failed_count + 1 }
    ∧ (processOne env st a).fetchCalls = st.fetchCalls
    ∧ processAll env st (a :: rest) =
        processAll env { st with failed_count := st.failed_count + 1 } rest := by
  have h1 : processOne env st a = { st with failed_count := st.failed_count + 1 } := by
    simp [processOne, hfail]
  refine ⟨h1, by rw [h1], ?_⟩
  show processAll env (processOne env st a) rest = _
  rw [h1]

/-- An environment whose URL endpoint always fails in transport. -/
def wenvFail : Env := ⟨fun _ => UrlReply.transportError, fun _ => FetchOutcome.success []⟩

/-- A zeroed batch state on an empty disk. -/
def wst : BatchState := ⟨0, 0, [], 0⟩

/-- A concrete activity. -/
def wact : Activity := ⟨7, none, none⟩

/-- C6 witness: the failure path evaluated on a concrete activity against
an endpoint that fails in transport. -/
theorem resolve_failure_skips_fetch_witness :
    processOne wenvFail wst wact = { wst with failed_count := wst.failed_count + 1 }
    ∧ (processOne wenvFail wst wact).fetchCalls = wst.fetchCalls
    ∧ processAll wenvFail wst [wact] =
        processAll wenvFail { wst with failed_count := wst.failed_count + 1 } [] :=
  resolve_failure_skips_fetch wenvFail wst wact [] rfl

/-- C9: a download limit of 0 is falsy in Python, so it is treated as
absent — no truncation happens and the batch behaves exactly as with no
limit, processing every activity that survived filtering. -/
theorem limit_zero_means_no_limit (env : Env) (fs : FS)
    (activities : List Activity) (filt : Option String) :
    download_all_activities env fs activities (some 0) filt =
      download_all_activities env fs activities none filt
    ∧ applyLimit (some 0) (filterByTitle filt activities) =
        filterByTitle filt activities :=
  ⟨rfl, rfl⟩

theorem processOne_counts (env : Env) (st : BatchState) (a : Activity) :
    (processOne env st a).success_count + (processOne env st a).failed_count =
      st.success_count + st.failed_count + 1 := by
  unfold processOne
  cases get_download_url (env.urlReplyOf a.rideId) with
  | none => simp; omega
  | some u =>
    by_cases hu : u = ""
    · simp [hu]
      omega
    · simp only [hu, if_neg, if_false]
      by_cases hok : (download_file st.fs u (derivedFilename a u) env.fetch).ok
      · simp [hok]
        omega
      · simp [hok]
        omega

theorem processAll_counts (env : Env) : ∀ (acts : List Activity) (st : BatchState),
    (processAll env st acts).success_count + (processAll env st acts).failed_count =
      st.success_count + st.failed_count + acts.length := by
  intro acts
  induction acts with
  | nil => intro st; simp [processAll]
  | cons a rest ih =>
    intro st
    have h2 := ih (processOne env st a)
    have h1 := processOne_counts env st a
    show (processAll env (processOne env st a) rest).success_count +
      (processAll env (processOne env st a) rest).failed_count = _
    rw [h2, h1]
    simp
    omega

/-- C10: after the batch loop, the success count plus the failure count
equals the number of activities processed — the length of the activity
list after filtering and truncation (each iteration increments exactly
one of the two counters). -/
theorem counts_partition_batch (env : Env) (fs : FS) (activities : List Activity)
    (limit : Option Nat) (filt : Option String) :
    (download_all_activities env fs activities limit filt).success_count +
      (download_all_activities env fs activities limit filt).failed_count =
      (applyLimit limit (filterByTitle filt activities)).length := by
  simpa [download_all_activities] using
    processAll_counts env (applyLimit limit (filterByTitle filt activities)) ⟨0, 0, fs, 0⟩

end IGPSport
